import Mathlib

/-!
Verification of the tagging layer of the depccg CCG parser
(`src/cpp/chainer_tagger.h`): the category inventory loaded by
`ChainerTagger`, its index accessors `TargetSize` / `TagAt`, and the
`predict` scoring contract.

Embedding choices:
* `cat::Category` is an opaque interned value; interning canonical
  strings is modelled by the injective constructor `intern`.
* The file system is a map from path strings to optional line lists;
  a missing or unreadable file is `none`.
* The caller-supplied `std::string& model` argument is a reference to a
  caller-owned buffer, modelled as a location `Loc` in a `store` map;
  the constructor receives the location, mirroring C++ reference
  binding, so retention of the reference is observable in the state.
* C++ `int` results are modelled as `Int` with explicit 32-bit
  wrap-around (`toInt32`), the gcc/clang and C++20 conversion behaviour.
* Unchecked `std::vector::operator[]` access out of range is undefined
  behaviour, modelled by the distinguished result
  `TagResult.undefinedBehavior`.
-/

namespace myccg

/-- An interned grammatical category (`cat::Category`): an opaque value
identified by its canonical string; interning makes equal strings yield
the identical instance. -/
structure Category where
  name : String
deriving DecidableEq, Repr

/-- Interning: canonical string to the unique `Category` instance. -/
def intern (s : String) : Category := ⟨s⟩

/-- Construction-time failures of the category-list loader. -/
inductive LoadError where
  | missing : LoadError
  | empty : LoadError
  | duplicate : LoadError
deriving DecidableEq, Repr

/-- Prediction-time failures: malformed input to `predict`. -/
inductive PredictionError where
  | emptyInput : PredictionError
deriving DecidableEq, Repr

/-- Result of an inventory access `TagAt`: a category value, a raised
out-of-range condition, or C++ undefined behaviour from an unchecked
`std::vector::operator[]`. -/
inductive TagResult where
  | value : Category → TagResult
  | outOfRange : TagResult
  | undefinedBehavior : TagResult
deriving DecidableEq, Repr

/-- A location in the caller's memory holding a `std::string` buffer. -/
abbrev Loc := Nat

/-- The lines of a text file that are non-empty; the loader indexes
categories by these, in file order. -/
def nonEmptyLines (lines : List String) : List String :=
  lines.filter (fun l => l ≠ "")

/-- Modelled from the spec: `utils::load_category_list` (declared in
`utils.h`, body not under `src/`). Per spec sections 3, 4.1, 6, 7 and 8:
one category per line, file order defines index order, size is the
number of non-empty lines; fails with a distinct `LoadError` when the
resource is missing/unreadable, empty, or contains a duplicate entry
(never a silently truncated inventory). Malformed-entry detection
belongs to the external `Category` parser and is not modelled. -/
def load_category_list (contents : Option (List String)) :
    Except LoadError (List Category) :=
  match contents with
  | none => .error .missing
  | some lines =>
      if nonEmptyLines lines = [] then .error .empty
      else if (nonEmptyLines lines).Nodup then
        .ok ((nonEmptyLines lines).map intern)
      else .error .duplicate

/-- The fixed category-list location: the constructor initializer
`utils::load_category_list(model + "/target.txt")` builds the path by
plain string concatenation, with no normalization of `model`. -/
def resourcePath (model : String) : String := model ++ "/target.txt"

/-- `ChainerTagger`'s state after construction: the member
`const std::string& model_` (a retained reference to the caller's path
buffer, stored as its location) and the member
`std::vector<const cat::Category*> targets_`. -/
structure ChainerTagger where
  model_ : Loc
  targets_ : List Category
deriving DecidableEq, Repr

/-- The constructor `ChainerTagger(const std::string& model)
: model_(model), targets_(utils::load_category_list(model + "/target.txt")) {}`.
`fs` maps path strings to the lines of the file there (`none` when
missing/unreadable); `store` gives the string held in each caller
buffer; `ℓ` is the location of the caller's path argument, bound by
reference. A loader failure (a thrown exception in C++) propagates out
of the constructor, so no object is produced. -/
def mkChainerTagger (fs : String → Option (List String))
    (store : Loc → String) (ℓ : Loc) : Except LoadError ChainerTagger :=
  (load_category_list (fs (resourcePath (store ℓ)))).map
    (fun ts => { model_ := ℓ, targets_ := ts })

/-- The inventory's element count, `targets_.size()` (a `size_t`). -/
def ChainerTagger.Size (t : ChainerTagger) : Nat := t.targets_.length

/-- Largest value of a 32-bit C++ `int`. -/
def INT_MAX : Int := 2 ^ 31 - 1

/-- Conversion of a `size_t` value to a 32-bit C++ `int`: two's
complement wrap-around (the gcc/clang behaviour, mandated by C++20). -/
def toInt32 (n : Nat) : Int :=
  let m : Int := (n : Int) % 2 ^ 32
  if m < 2 ^ 31 then m else m - 2 ^ 32

/-- `int TargetSize() const { return this->targets_.size(); }` —
the `size_t` count converted to `int`. -/
def ChainerTagger.TargetSize (t : ChainerTagger) : Int := toInt32 t.Size

/-- `const cat::Category* TagAt(int idx) const { return targets_[idx]; }` —
unchecked `std::vector::operator[]`: in range it returns the element
(a negative `idx` converts to a huge `size_t`, hence is out of range);
out of range the access is undefined behaviour. No bounds check and no
raised condition appear in the source. -/
def ChainerTagger.TagAt (t : ChainerTagger) (idx : Int) : TagResult :=
  if h : 0 ≤ idx ∧ idx.toNat < t.Size then
    .value (t.targets_.get ⟨idx.toNat, h.2⟩)
  else
    .undefinedBehavior

/-- Modelled from the spec: the body of
`std::unique_ptr<float[]> ChainerTagger::predict(const std::string&) const`
is not under `src/` (only its declaration is). Per spec section 4.2:
given the backend's inference mechanism `score` (an external
collaborator), a non-empty ordered token sequence yields a fresh score
buffer of length `n × TargetSize()`, flattened row-major so that within
token `i`'s segment offset `j` holds the score for `TagAt(j)`; an empty
token sequence is reported as a typed per-call `PredictionError`. -/
def ChainerTagger.predict (score : String → Category → Float)
    (t : ChainerTagger) (tokens : List String) :
    Except PredictionError (List Float) :=
  if tokens = [] then .error .emptyInput
  else .ok (tokens.map (fun tok => t.targets_.map (score tok))).flatten

/-- The state-transformer view of a `predict` call: the method is
`const`-qualified in the source, so the post-call backend state is the
pre-call state. -/
def ChainerTagger.predictS (score : String → Category → Float)
    (t : ChainerTagger) (tokens : List String) :
    Except PredictionError (List Float) × ChainerTagger :=
  (t.predict score tokens, t)

/-- The backend state after a sequence of `predict` calls, threading the
state through each call. -/
def runCalls (score : String → Category → Float) (t : ChainerTagger) :
    List (List String) → ChainerTagger
  | [] => t
  | tokens :: rest => runCalls score (t.predictS score tokens).2 rest

/-- A concrete file system: the model directory `"model"` holds a
category list with one interspersed empty line. -/
def fsEx : String → Option (List String) := fun p =>
  if p = "model/target.txt" then some ["NP", "", "S/NP", "S\\NP"] else none

/-- A concrete caller store: buffer location 0 holds the path `"model"`. -/
def storeEx : Loc → String := fun _ => "model"

/-- The backend produced by constructing against `fsEx` at location 0. -/
def tgEx : ChainerTagger :=
  { model_ := 0, targets_ := [intern "NP", intern "S/NP", intern "S\\NP"] }

/-- A trivial concrete inference mechanism for witnesses. -/
def score0 : String → Category → Float := fun _ _ => 0

/-- The score buffer `score0` produces on a two-token sentence over
`tgEx`'s three categories. -/
def bufEx : List Float := List.replicate 6 0

/-- A backend whose inventory exceeds `INT_MAX`. -/
def tgBig : ChainerTagger :=
  { model_ := 0, targets_ := List.replicate (2 ^ 31) (intern "X") }

/-! ## Helper lemmas -/

theorem intern_injective : Function.Injective intern := by
  intro a b h
  simpa [intern, Category.mk.injEq] using h

/-- Inversion of a successful construction: the resource existed, its
non-empty lines were a non-empty duplicate-free list, and the state
holds the caller's buffer location and the interned categories in file
order. -/
theorem mk_ok_state (fs : String → Option (List String)) (store : Loc → String)
    (ℓ : Loc) (t : ChainerTagger) (hok : mkChainerTagger fs store ℓ = .ok t) :
    ∃ lines, fs (resourcePath (store ℓ)) = some lines ∧
      nonEmptyLines lines ≠ [] ∧ (nonEmptyLines lines).Nodup ∧
      t.model_ = ℓ ∧ t.targets_ = (nonEmptyLines lines).map intern := by
  unfold mkChainerTagger load_category_list at hok
  cases hfs : fs (resourcePath (store ℓ)) with
  | none => rw [hfs] at hok; simp [Except.map] at hok
  | some lines =>
      rw [hfs] at hok
      refine ⟨lines, rfl, ?_⟩
      by_cases hne : nonEmptyLines lines = []
      · simp [hne, Except.map] at hok
      · by_cases hnd : (nonEmptyLines lines).Nodup
        · simp [hne, hnd, Except.map] at hok
          exact ⟨hne, hnd, by rw [← hok], by rw [← hok]⟩
        · simp [hne, hnd, Except.map] at hok

/-- In-range access through the `int` index: `TagAt` returns the stored
category. -/
theorem tagAt_of_lt (t : ChainerTagger) (i : Nat) (h : i < t.Size) :
    t.TagAt (i : Int) = .value (t.targets_.get ⟨i, h⟩) := by
  unfold ChainerTagger.TagAt
  rw [dif_pos]
  · simp [Int.toNat_natCast]
  · exact ⟨Int.natCast_nonneg i, by simpa [Int.toNat_natCast] using h⟩

theorem flatten_length_uniform {α : Type} (T : Nat) :
    ∀ (rows : List (List α)), (∀ r ∈ rows, r.length = T) →
      rows.flatten.length = rows.length * T
  | [], _ => by simp
  | r :: rest, h => by
      have hr : r.length = T := h r (List.mem_cons_self r rest)
      have ih := flatten_length_uniform T rest
        (fun s hs => h s (List.mem_cons_of_mem r hs))
      simp [List.flatten_cons, hr, ih, Nat.succ_mul, Nat.add_comm]

theorem flatten_getElem_uniform {α : Type} (T : Nat) :
    ∀ (rows : List (List α)), (∀ r ∈ rows, r.length = T) →
      ∀ i j, j < T →
        rows.flatten[i * T + j]? = rows[i]?.bind (fun r => r[j]?)
  | [], _, i, j, _ => by simp
  | r :: rest, h, 0, j, hj => by
      have hr : r.length = T := h r (List.mem_cons_self r rest)
      simp [List.flatten_cons, List.getElem?_append, hr, hj]
  | r :: rest, h, i + 1, j, hj => by
      have hr : r.length = T := h r (List.mem_cons_self r rest)
      have ih := flatten_getElem_uniform T rest
        (fun s hs => h s (List.mem_cons_of_mem r hs)) i j hj
      have harith : (i + 1) * T + j = r.length + (i * T + j) := by
        rw [hr]; ring
      rw [List.flatten_cons, harith,
        List.getElem?_append_right (Nat.le_add_right _ _)]
      simp [ih]

/-- A `size_t` count that fits in `int` survives the conversion. -/
theorem toInt32_of_le (n : Nat) (h : n ≤ INT_MAX.toNat) : toInt32 n = n := by
  have hn : n ≤ 2 ^ 31 - 1 := by simpa [INT_MAX] using h
  unfold toInt32
  have h1 : (n : Int) % 2 ^ 32 = n :=
    Int.emod_eq_of_lt (by positivity) (by push_cast; omega)
  simp only [h1]
  rw [if_pos (by push_cast; omega)]

/-- Whatever the count, the converted `int` never exceeds `INT_MAX`. -/
theorem toInt32_le_intmax (n : Nat) : toInt32 n ≤ INT_MAX := by
  unfold toInt32 INT_MAX
  simp only []
  have h0 : 0 ≤ (n : Int) % 2 ^ 32 := Int.emod_nonneg _ (by norm_num)
  have h1 : (n : Int) % 2 ^ 32 < 2 ^ 32 := Int.emod_lt_of_pos _ (by norm_num)
  split <;> omega

/-! ## Claim theorems -/

/-- C1: for every valid model directory, the inventory's `Size()` equals
the number of non-empty lines of the category-list resource, and for
every in-range index `i`, `TagAt(i)` returns the (interned) category on
line `i` of that resource (0-indexed, file order defining index order
among the non-empty lines). -/
theorem inventory_size_and_order (fs : String → Option (List String))
    (store : Loc → String) (ℓ : Loc) (lines : List String) (t : ChainerTagger)
    (hfs : fs (resourcePath (store ℓ)) = some lines)
    (hok : mkChainerTagger fs store ℓ = .ok t) :
    t.Size = (nonEmptyLines lines).length ∧
    ∀ i (h : i < (nonEmptyLines lines).length),
      t.TagAt (i : Int) = .value (intern ((nonEmptyLines lines).get ⟨i, h⟩)) := by
  obtain ⟨lines2, hfs2, hne, hnd, hm, ht⟩ := mk_ok_state fs store ℓ t hok
  rw [hfs] at hfs2
  cases hfs2
  have hsize : t.Size = (nonEmptyLines lines).length := by
    simp [ChainerTagger.Size, ht]
  refine ⟨hsize, fun i h => ?_⟩
  rw [tagAt_of_lt t i (by omega)]
  congr 1
  simp [ht, List.get_eq_getElem, List.getElem_map]

/-- C1 witness: constructing against a concrete four-line resource (one
line blank) yields `Size() = 3` and `TagAt(1)` the category of the
second non-empty line. -/
theorem inventory_size_and_order_witness :
    tgEx.Size = (nonEmptyLines ["NP", "", "S/NP", "S\\NP"]).length ∧
    tgEx.TagAt (1 : Int) = .value (intern "S/NP") := by
  have h := inventory_size_and_order fsEx storeEx 0
    ["NP", "", "S/NP", "S\\NP"] tgEx rfl rfl
  refine ⟨h.1, ?_⟩
  have h2 := h.2 1 (by decide)
  simpa using h2

/-- C2: on a non-empty token sequence of length `n`, `predict` returns a
buffer of exactly `n × TargetSize()` scores, flattened row-major: the
score at offset `i·T + j` is the inference mechanism's score for token
`i` against the category `TagAt(j)`. -/
theorem predict_length_and_layout (score : String → Category → Float)
    (t : ChainerTagger) (tokens : List String) (buf : List Float)
    (hne : tokens ≠ []) (hok : t.predict score tokens = .ok buf) :
    buf.length = tokens.length * t.Size ∧
    (t.Size ≤ INT_MAX.toNat →
      (buf.length : Int) = (tokens.length : Int) * t.TargetSize) ∧
    ∀ i j (hi : i < tokens.length) (hj : j < t.Size),
      buf[i * t.Size + j]? =
        some (score (tokens.get ⟨i, hi⟩) (t.targets_.get ⟨j, hj⟩)) ∧
      t.TagAt (j : Int) = .value (t.targets_.get ⟨j, hj⟩) := by
  unfold ChainerTagger.predict at hok
  rw [if_neg hne] at hok
  have hbuf : buf = (tokens.map (fun tok => t.targets_.map (score tok))).flatten := by
    cases hok; rfl
  have hrows : ∀ r ∈ tokens.map (fun tok => t.targets_.map (score tok)),
      r.length = t.Size := by
    intro r hr
    obtain ⟨tok, _, rfl⟩ := List.mem_map.mp hr
    simp [ChainerTagger.Size]
  have hlen : buf.length = tokens.length * t.Size := by
    rw [hbuf, flatten_length_uniform t.Size _ hrows, List.length_map]
  refine ⟨hlen, ?_, ?_⟩
  · intro hsmall
    have hts : t.TargetSize = (t.Size : Int) := toInt32_of_le _ hsmall
    rw [hts, hlen]; push_cast; ring
  · intro i j hi hj
    constructor
    · rw [hbuf, flatten_getElem_uniform t.Size _ hrows i j hj]
      rw [List.getElem?_map]
      have hitok : tokens[i]? = some (tokens.get ⟨i, hi⟩) := by
        simp [List.getElem?_eq_getElem hi, List.get_eq_getElem]
      rw [hitok]
      simp [List.getElem?_map, List.getElem?_eq_getElem hj, List.get_eq_getElem,
        ChainerTagger.Size]
    · exact tagAt_of_lt t j hj

/-- C2 witness: `Predict(["dogs", "run"])` on the three-category backend
returns a buffer of length 6 = 2 × 3, and the score at offset
1·3 + 0 is the mechanism's score for "run" against `TagAt(0)`. -/
theorem predict_length_and_layout_witness :
    tgEx.predict score0 ["dogs", "run"] = .ok bufEx ∧
    bufEx.length = 2 * tgEx.Size ∧
    bufEx[1 * tgEx.Size + 0]? = some (score0 "run" (intern "NP")) := by
  have h := predict_length_and_layout score0 tgEx ["dogs", "run"] bufEx
    (by decide) rfl
  exact ⟨rfl, h.1, (h.2.2 1 0 (by decide) (by decide)).1⟩

/-- C3 counterexample: on a concretely constructed backend with
`Size() = 3`, neither `TagAt(3)` (i.e. `TagAt(Size())`) nor `TagAt(-1)`
produces the `OutOfRange` condition: the unchecked `operator[]` access
is undefined behaviour instead. -/
theorem tagAt_no_out_of_range_condition :
    mkChainerTagger fsEx storeEx 0 = .ok tgEx ∧
    tgEx.Size = 3 ∧
    tgEx.TagAt 3 ≠ TagResult.outOfRange ∧
    tgEx.TagAt (-1) ≠ TagResult.outOfRange := by
  refine ⟨rfl, rfl, ?_, ?_⟩ <;> decide

/-- C3 (amended): `TagAt(idx)` performs an unchecked vector access: for
an index in `[0, Size())` it returns the stored category; for any index
outside that range — in particular `Size()` and `-1` — the access is a
precondition violation with undefined behaviour, and no `OutOfRange`
condition is raised. -/
theorem tagAt_unchecked_access (t : ChainerTagger) (idx : Int) :
    (¬ (0 ≤ idx ∧ idx.toNat < t.Size) →
      t.TagAt idx = .undefinedBehavior ∧ t.TagAt idx ≠ .outOfRange) ∧
    ∀ h : 0 ≤ idx ∧ idx.toNat < t.Size,
      t.TagAt idx = .value (t.targets_.get ⟨idx.toNat, h.2⟩) := by
  constructor
  · intro hout
    unfold ChainerTagger.TagAt
    rw [dif_neg hout]
    exact ⟨rfl, by simp⟩
  · intro h
    unfold ChainerTagger.TagAt
    rw [dif_pos h]

/-- C3 (amended) witness: out of range at `-1` the access is undefined
behaviour and not `OutOfRange`; in range at `1` it returns the stored
category. -/
theorem tagAt_unchecked_access_witness :
    (tgEx.TagAt (-1) = .undefinedBehavior ∧ tgEx.TagAt (-1) ≠ .outOfRange) ∧
    tgEx.TagAt 1 = .value (intern "S/NP") := by
  refine ⟨(tagAt_unchecked_access tgEx (-1)).1 (by decide), ?_⟩
  exact (tagAt_unchecked_access tgEx 1).2 ⟨by decide, by decide⟩

/-- C4: the backend state after a concrete construction still holds the
caller's path buffer location: the member `const std::string& model_`
is initialized from the constructor's reference parameter and retained
for the object's lifetime, so the caller's path buffer remains part of
the backend's state after construction completes. -/
theorem model_path_reference_retained :
    mkChainerTagger fsEx storeEx 0 = .ok tgEx ∧ tgEx.model_ = 0 :=
  ⟨rfl, rfl⟩

/-- C5: a missing or unreadable category-list resource fails
construction with `LoadError.missing`; a resource with no non-empty
lines fails with `LoadError.empty`; a successful construction never
yields an empty inventory. The failure is raised by the constructor
(the loader runs in the member initializer), so no backend object on
which `predict` could be called ever exists. -/
theorem construction_fails_early (fs : String → Option (List String))
    (store : Loc → String) (ℓ : Loc) :
    (fs (resourcePath (store ℓ)) = none →
      mkChainerTagger fs store ℓ = .error .missing) ∧
    (∀ lines, fs (resourcePath (store ℓ)) = some lines →
      nonEmptyLines lines = [] →
      mkChainerTagger fs store ℓ = .error .empty) ∧
    ∀ t, mkChainerTagger fs store ℓ = .ok t → t.targets_ ≠ [] := by
  refine ⟨?_, ?_, ?_⟩
  · intro h
    unfold mkChainerTagger load_category_list
    rw [h]
    rfl
  · intro lines hsome hempty
    unfold mkChainerTagger load_category_list
    rw [hsome]
    simp [hempty, Except.map]
  · intro t hok
    obtain ⟨lines, _, hne, _, _, ht⟩ := mk_ok_state fs store ℓ t hok
    rw [ht]
    intro hcontra
    exact hne (by simpa using hcontra)

/-- C5 witness: a path with no resource fails with `missing`, an
all-blank resource fails with `empty`, and the concretely constructed
backend has a non-empty inventory. -/
theorem construction_fails_early_witness :
    mkChainerTagger fsEx (fun _ => "nomodel") 0 = .error .missing ∧
    mkChainerTagger (fun _ => some ["", ""]) storeEx 0 = .error .empty ∧
    tgEx.targets_ ≠ [] := by
  refine ⟨(construction_fails_early fsEx (fun _ => "nomodel") 0).1 rfl, ?_, ?_⟩
  · exact (construction_fails_early (fun _ => some ["", ""]) storeEx 0).2.1
      ["", ""] rfl rfl
  · exact (construction_fails_early fsEx storeEx 0).2.2 tgEx rfl

/-- C6: the inventory is immutable after construction: a `predict` call
leaves the backend state unchanged, any sequence of `predict` calls
leaves it unchanged, and `TargetSize()` — the inventory's element count
converted to `int` — is identical before and after any number of calls
on the same backend instance. -/
theorem inventory_immutable (score : String → Category → Float)
    (t : ChainerTagger) (tokens : List String) (calls : List (List String)) :
    (t.predictS score tokens).2 = t ∧
    runCalls score t calls = t ∧
    (runCalls score t calls).TargetSize = t.TargetSize ∧
    t.TargetSize = toInt32 t.Size := by
  have hrun : ∀ (u : ChainerTagger) (cs : List (List String)),
      runCalls score u cs = u := by
    intro u cs
    induction cs generalizing u with
    | nil => rfl
    | cons c rest ih => simpa [runCalls, ChainerTagger.predictS] using ih u
  exact ⟨rfl, hrun t calls, by rw [hrun t calls], rfl⟩

/-- C7: the inventory of any successfully constructed backend has no
duplicates — `TagAt(i) ≠ TagAt(j)` for distinct in-range `i`, `j` — and
loading a category list containing a duplicate entry fails with
`LoadError.duplicate`, never a silently truncated inventory. -/
theorem inventory_nodup (fs : String → Option (List String))
    (store : Loc → String) (ℓ : Loc) (t : ChainerTagger)
    (hok : mkChainerTagger fs store ℓ = .ok t) :
    (∀ i j (hi : i < t.Size) (hj : j < t.Size), i ≠ j →
      t.TagAt (i : Int) ≠ t.TagAt (j : Int)) ∧
    ∀ lines, ¬ (nonEmptyLines lines).Nodup →
      load_category_list (some lines) = .error .duplicate := by
  constructor
  · intro i j hi hj hij
    obtain ⟨lines, _, _, hnd, _, ht⟩ := mk_ok_state fs store ℓ t hok
    have hnd2 : t.targets_.Nodup := ht ▸ hnd.map intern_injective
    rw [tagAt_of_lt t i hi, tagAt_of_lt t j hj]
    intro hcontra
    have hget : t.targets_.get ⟨i, hi⟩ = t.targets_.get ⟨j, hj⟩ := by
      injection hcontra
    rw [List.get_eq_getElem, List.get_eq_getElem] at hget
    exact hij ((hnd2.getElem_inj_iff).mp hget)
  · intro lines hdup
    have hne : nonEmptyLines lines ≠ [] := by
      intro hE
      exact hdup (hE ▸ List.nodup_nil)
    unfold load_category_list
    simp [hne, hdup]

/-- C7 witness: on the concrete backend `TagAt(0) ≠ TagAt(1)`, and a
two-line resource repeating `"NP"` loads to `LoadError.duplicate`. -/
theorem inventory_nodup_witness :
    tgEx.TagAt 0 ≠ tgEx.TagAt 1 ∧
    load_category_list (some ["NP", "NP"]) = .error .duplicate := by
  have h := inventory_nodup fsEx storeEx 0 tgEx rfl
  exact ⟨h.1 0 1 (by decide) (by decide) (by decide), h.2 ["NP", "NP"] (by decide)⟩

/-- C8: `predict` on the empty token sequence fails with the typed
per-call `PredictionError.emptyInput`, the failed call leaves the
backend state unchanged (reusable), and every non-empty token sequence
on the same backend still succeeds. -/
theorem predict_empty_input (score : String → Category → Float)
    (t : ChainerTagger) :
    t.predict score [] = .error .emptyInput ∧
    (t.predictS score []).2 = t ∧
    ∀ tokens : List String, tokens ≠ [] →
      ∃ buf, t.predict score tokens = .ok buf := by
  refine ⟨rfl, rfl, fun tokens hne => ?_⟩
  unfold ChainerTagger.predict
  rw [if_neg hne]
  exact ⟨_, rfl⟩

/-- C8 witness: the empty call on the concrete backend fails with
`emptyInput`, leaves the state intact, and a subsequent one-token call
succeeds. -/
theorem predict_empty_input_witness :
    tgEx.predict score0 [] = .error .emptyInput ∧
    (tgEx.predictS score0 []).2 = tgEx ∧
    ∃ buf, tgEx.predict score0 ["dogs"] = .ok buf := by
  have h := predict_empty_input score0 tgEx
  exact ⟨h.1, h.2.1, h.2.2 ["dogs"] (by decide)⟩

/-- C9: construction reads the category list from exactly the location
`p ++ "/target.txt"` obtained by plain string concatenation from the
model path `p`, and from no other location: the loaded inventory depends
only on the file system's content at that one path, so two backends
constructed from the same path string (even via different caller
buffers and otherwise different file systems) load the same resource. -/
theorem construction_reads_fixed_path (fs fs2 : String → Option (List String))
    (store store2 : Loc → String) (ℓ ℓ2 : Loc) :
    resourcePath (store ℓ) = store ℓ ++ "/target.txt" ∧
    (store ℓ = store2 ℓ2 →
      fs (store ℓ ++ "/target.txt") = fs2 (store ℓ ++ "/target.txt") →
      (mkChainerTagger fs store ℓ).map ChainerTagger.targets_ =
        (mkChainerTagger fs2 store2 ℓ2).map ChainerTagger.targets_) := by
  refine ⟨rfl, fun hpath hfs => ?_⟩
  unfold mkChainerTagger resourcePath
  rw [← hpath, ← hfs]
  cases load_category_list (fs (store ℓ ++ "/target.txt")) <;> rfl

/-- C9 witness: the concrete backend and a backend built from a
different caller buffer over a file system that differs everywhere
except at `"model/target.txt"` load the same inventory. -/
theorem construction_reads_fixed_path_witness :
    resourcePath (storeEx 0) = storeEx 0 ++ "/target.txt" ∧
    (mkChainerTagger fsEx storeEx 0).map ChainerTagger.targets_ =
      (mkChainerTagger
        (fun p => if p = "model/target.txt"
          then some ["NP", "", "S/NP", "S\\NP"] else some ["junk"])
        (fun _ => "model") 5).map ChainerTagger.targets_ := by
  have h := construction_reads_fixed_path fsEx
    (fun p => if p = "model/target.txt"
      then some ["NP", "", "S/NP", "S\\NP"] else some ["junk"])
    storeEx (fun _ => "model") 0 5
  exact ⟨h.1, h.2 rfl rfl⟩

/-- C10: `TargetSize()` is the inventory's `size_t` element count
converted to a 32-bit signed `int`: whenever the count is at most
`INT_MAX` the returned value equals the true count and every valid
index fits in the `int` parameter of `TagAt` (which then returns the
stored category); for an inventory larger than `INT_MAX` the returned
value cannot equal the true count. -/
theorem targetSize_int_conversion (t : ChainerTagger) :
    (t.Size ≤ INT_MAX.toNat →
      t.TargetSize = (t.Size : Int) ∧
      ∀ i (h : i < t.Size),
        (i : Int) ≤ INT_MAX ∧
        t.TagAt (i : Int) = .value (t.targets_.get ⟨i, h⟩)) ∧
    (INT_MAX.toNat < t.Size → t.TargetSize ≠ (t.Size : Int)) := by
  have hI : INT_MAX = 2147483647 := by norm_num [INT_MAX]
  constructor
  · intro hle
    refine ⟨toInt32_of_le _ hle, fun i h => ⟨?_, tagAt_of_lt t i h⟩⟩
    rw [hI] at hle ⊢
    omega
  · intro hgt
    have h1 := toInt32_le_intmax t.Size
    rw [hI] at h1 hgt
    unfold ChainerTagger.TargetSize
    omega

/-- C10 witness: the three-category backend reports `TargetSize() = 3`
with `TagAt(1)` addressable through the `int` index; the backend with
`2^31` categories cannot report its true count through `int`. -/
theorem targetSize_int_conversion_witness :
    tgEx.TargetSize = (tgEx.Size : Int) ∧
    tgEx.TagAt (1 : Int) = .value (intern "S/NP") ∧
    tgBig.TargetSize ≠ (tgBig.Size : Int) := by
  have hsmall := (targetSize_int_conversion tgEx).1 (by decide)
  have hbig := (targetSize_int_conversion tgBig).2 (by
    have hsz : tgBig.Size = 2 ^ 31 := by
      show (List.replicate (2 ^ 31) (intern "X")).length = 2 ^ 31
      exact List.length_replicate _ _
    rw [hsz]
    decide)
  exact ⟨hsmall.1, (hsmall.2 1 (by decide)).2, hbig⟩

end myccg
